import Mathlib

/-!
Verification of the query-processing pipeline (`qp_agent.py`).

The embedding below models the pure computational content of
`QueryProcessingAgent`: response parsing (`_parse_query`), ontology
activation (`_activate_ontology`, with the ontology's query answers passed
in as functions), knowledge-base ranking (`_search_knowledge_base`),
workflow-response decoding and the specification assembly
(`_generate_analysis_spec`).  External effects (the text-generation call,
JSON decoding) are modelled as `Option`-valued inputs: `none` stands for a
raised exception / failed decode.  Python strings are modelled as `String`
(lists of characters); `str.lower` is modelled as per-character ASCII
lowercasing, `str.strip` as trimming whitespace characters on both ends,
`needle in hay` as substring containment, and `s.split(sep)` (for a
non-empty separator) as `pySplit`.
-/

/-- The backtick character (code 96), written via `Char.ofNat`. -/
def backtick : Char := Char.ofNat 96

/-- Here `listContains hay needle` models Python `needle in hay` on the
character lists of two strings: contiguous-substring containment
(the empty needle is contained in everything). -/
def listContains : List Char → List Char → Bool
  | [], needle => needle.isEmpty
  | x :: xs, needle => needle.isPrefixOf (x :: xs) || listContains xs needle

/-- Python `needle in hay` for strings. -/
def strContains (hay needle : String) : Bool :=
  listContains hay.toList needle.toList

/-- Python `s.startswith(pre)`. -/
def pyStartsWith (s pre : String) : Bool :=
  pre.toList.isPrefixOf s.toList

/-- Python `s.strip()`: drop whitespace from both ends. -/
def pyStrip (s : String) : String :=
  ⟨((s.toList.dropWhile Char.isWhitespace).reverse.dropWhile Char.isWhitespace).reverse⟩

/-- Python `s.lower()` (ASCII model). -/
def pyLower (s : String) : String :=
  ⟨s.toList.map Char.toLower⟩

/-- If `pre` is a prefix of `l`, return the remainder, else `none`. -/
def dropPrefixQ : List Char → List Char → Option (List Char)
  | [], l => some l
  | _ :: _, [] => none
  | p :: ps, x :: xs => if p = x then dropPrefixQ ps xs else none

/-- Fuelled worker for `pySplit`; the fuel dominates the input length at
every call site, so the fuel-exhaustion branch is never taken. -/
def pySplitGo : Nat → List Char → List Char → List (List Char)
  | _, _, [] => [[]]
  | 0, _, l => [l]
  | fuel + 1, sep, x :: xs =>
    match dropPrefixQ sep (x :: xs) with
    | some rest => [] :: pySplitGo fuel sep rest
    | none =>
      match pySplitGo fuel sep xs with
      | [] => [[x]]
      | h :: t => (x :: h) :: t

/-- Python `s.split(sep)` for a non-empty separator `sep`. -/
def pySplit (s sep : String) : List String :=
  (pySplitGo s.toList.length sep.toList s.toList).map List.asString

/-- Python uri.split on the hash character, last element: the local name
of an ontology URI. -/
def localName (uri : String) : String :=
  (pySplit uri "#").getLastD ""

/-! ## Data model -/

/-- One knowledge-base record, with `semantic_context.represents`,
`semantic_context.domain` and `spatial_context.geometry_type` already
defaulted to `""` when the key is missing (the code reads them with
`.get(key, '')`). -/
structure Dataset where
  file_name : String
  file_path : String
  represents : String
  domain : String
  geometry_type : String
  capable_tasks : List String
deriving DecidableEq, Repr

/-- The dictionary returned by `_parse_query`. -/
structure ParsedIntent where
  original_query : String
  concepts : List String
  entities : List String
  filters : List String
  spatial_relationships : List String
  intent : String
deriving DecidableEq, Repr

/-- One entry of the list returned by `_search_knowledge_base`. -/
structure RankedDataset where
  dataset : Dataset
  relevance_score : Nat
  reasons : List String
deriving DecidableEq, Repr

/-- One relationship record accumulated by `_activate_ontology`. -/
structure RelTriple where
  subject : String
  predicate : String
  obj : String
deriving DecidableEq, Repr

/-- The dictionary returned by `_activate_ontology`. -/
structure ActivatedContext where
  relevant_concepts : List String
  relevant_entities : List String
  relevant_methods : List String
  relationships : List RelTriple
deriving DecidableEq, Repr

/-- One step of a decoded analysis workflow. -/
structure WorkflowStep where
  step : Nat
  operation : String
  data_source : String
  method : String
deriving DecidableEq, Repr

/-- The JSON object decoded from the workflow-generation response.  Each
field is `Option`-valued because the decoded dictionary may lack the key
(the code reads every key with `.get`). -/
structure Workflow where
  steps : Option (List WorkflowStep)
  data_sufficiency : Option String
  missing_data : Option (List String)
  alternatives : Option String
deriving DecidableEq, Repr

/-- The `sufficiency_check` block of the final specification. -/
structure SufficiencyCheck where
  can_complete : Bool
  status : String
  missing_data : List String
  alternatives : String
deriving DecidableEq, Repr

/-- The `ontology_context` block of the final specification. -/
structure OntologyContextOut where
  concepts : List String
  entities : List String
  methods : List String
deriving DecidableEq, Repr

/-- One `required_data` entry of the final specification. -/
structure RequiredDataEntry where
  dataset : String
  file_path : String
  status : String
  relevance_score : Nat
  why_relevant : List String
deriving DecidableEq, Repr

/-- The assembled analysis specification (the `timestamp` field of the
code, a wall-clock read, is outside the model). -/
structure AnalysisSpec where
  query : String
  parsed_query : ParsedIntent
  ontology_context : OntologyContextOut
  required_data : List RequiredDataEntry
  analysis_workflow : List WorkflowStep
  sufficiency_check : SufficiencyCheck
deriving DecidableEq, Repr

/-! ## `_parse_query` -/

/-- The degraded intent returned by the `except` branch of `_parse_query`. -/
def degradedIntent (query : String) : ParsedIntent :=
  ⟨query, [], [], [], [], query⟩

/-- The accumulator `_parse_query` starts from before scanning the
response lines (`intent` starts as the empty string). -/
def initialIntent (query : String) : ParsedIntent :=
  ⟨query, [], [], [], [], ""⟩

/-- Python line.split(marker), element 1: the remainder after the first
occurrence of a marker that the line is known to start with. -/
def markerRest (line marker : String) : String :=
  (pySplit line marker).getD 1 ""

/-- One iteration of the line loop of `_parse_query`: strip the line,
check the five markers in order, update the corresponding field. -/
def parseLine (p : ParsedIntent) (rawLine : String) : ParsedIntent :=
  let line := pyStrip rawLine
  if pyStartsWith line "CONCEPTS:" then
    { p with concepts := (pySplit (markerRest line "CONCEPTS:") ",").map pyStrip }
  else if pyStartsWith line "ENTITIES:" then
    { p with entities := (pySplit (markerRest line "ENTITIES:") ",").map pyStrip }
  else if pyStartsWith line "FILTERS:" then
    { p with filters := (pySplit (markerRest line "FILTERS:") ",").map pyStrip }
  else if pyStartsWith line "SPATIAL:" then
    { p with spatial_relationships := [pyStrip (markerRest line "SPATIAL:")] }
  else if pyStartsWith line "INTENT:" then
    { p with intent := pyStrip (markerRest line "INTENT:") }
  else p

/-- The function `_parse_query`: `response = none` models the generation call raising
(the `except` branch); `some content` models a successful call whose
message content is `content`. -/
def parseQuery (query : String) (response : Option String) : ParsedIntent :=
  match response with
  | none => degradedIntent query
  | some content => (pySplit content "\n").foldl parseLine (initialIntent query)

/-- A line carries a marker when, after stripping, it starts with one of
the five recognized markers. -/
def hasMarker (rawLine : String) : Bool :=
  let line := pyStrip rawLine
  pyStartsWith line "CONCEPTS:" || pyStartsWith line "ENTITIES:" ||
  pyStartsWith line "FILTERS:" || pyStartsWith line "SPATIAL:" ||
  pyStartsWith line "INTENT:"

/-! ## `_activate_ontology`

The ontology itself lives behind `rdflib` graph queries; its three query
answers are passed in as functions: `matchTerm term nodeType` models
`_fuzzy_match_ontology_term`, `relationsOf conceptUri` the relations
query, and `methodsOf entityUri` the applicable-methods query. -/

/-- The inner method loop: append each method's local name unless it is
already present (this list is de-duplicated). -/
def addMethods (acc : List String) (methodIds : List String) : List String :=
  methodIds.foldl
    (fun a m =>
      let n := localName m
      if n ∈ a then a else a ++ [n]) acc

/-- The function `_activate_ontology`. -/
def activateOntology (matchTerm : String → String → List String)
    (relationsOf : String → List (String × String))
    (methodsOf : String → List String)
    (parsed : ParsedIntent) : ActivatedContext :=
  let cs := parsed.concepts.flatMap (fun c => matchTerm c "PlanningConcept")
  let es := parsed.entities.flatMap (fun e => matchTerm e "UrbanEntity")
  let rels := cs.flatMap (fun cu => (relationsOf cu).map (fun pr => ⟨cu, pr.1, pr.2⟩))
  let ms := es.foldl (fun acc eu => addMethods acc (methodsOf eu)) []
  ⟨cs, es, ms, rels⟩

/-! ## `_search_knowledge_base` -/

/-- Concept loop: `+2` and one reason when the (lowercased) concept is a
substring of the dataset domain or of what it represents. -/
def conceptStep (domain represents : String) (acc : Nat × List String)
    (concept : String) : Nat × List String :=
  if strContains domain concept || strContains represents concept then
    (acc.1 + 2, acc.2 ++ ["Matches concept: " ++ concept])
  else acc

/-- Entity loop: `+2` and one reason when the (lowercased) entity is a
substring of what the dataset represents. -/
def entityStep (represents : String) (acc : Nat × List String)
    (entity : String) : Nat × List String :=
  if strContains represents entity then
    (acc.1 + 2, acc.2 ++ ["Contains entity: " ++ entity])
  else acc

/-- Geometry loop: `+1` and one reason per entity whose kind matches the
dataset's geometry type. -/
def geomStep (geometry : String) (acc : Nat × List String)
    (entity : String) : Nat × List String :=
  if (strContains entity "parcel" || strContains entity "building") &&
      strContains geometry "polygon" then
    (acc.1 + 1, acc.2 ++ ["Geometry matches entity type"])
  else if (strContains entity "transit" || strContains entity "stop") &&
      strContains geometry "point" then
    (acc.1 + 1, acc.2 ++ ["Geometry matches entity type"])
  else acc

/-- Capable-task loop: `+1` and one reason per task string of which some
concept is a substring (checked with `any`, so one point per task no
matter how many concepts match it). -/
def taskStep (concepts : List String) (acc : Nat × List String)
    (task : String) : Nat × List String :=
  let taskLower := pyLower task
  if concepts.any (fun c => strContains taskLower c) then
    (acc.1 + 1, acc.2 ++ ["Capable of related task: " ++ task])
  else acc

/-- The score/reason accumulator after the first three loops of
`_search_knowledge_base` (concepts vs domain/represents, entities vs
represents, entities vs geometry), before the capable-task loop.
`concepts` and `entities` are already lowercased. -/
def scorePreTasks (concepts entities : List String) (d : Dataset) :
    Nat × List String :=
  let domain := pyLower d.domain
  let represents := pyLower d.represents
  let geometry := pyLower d.geometry_type
  entities.foldl (geomStep geometry)
    (entities.foldl (entityStep represents)
      (concepts.foldl (conceptStep domain represents) (0, [])))

/-- The full per-dataset score and reason list of
`_search_knowledge_base`'s loop body. -/
def scoreDataset (concepts entities : List String) (d : Dataset) :
    Nat × List String :=
  d.capable_tasks.foldl (taskStep concepts) (scorePreTasks concepts entities d)

/-- The `relevant_datasets` list before sorting: one `RankedDataset` per
knowledge-base entry with a strictly positive score, in knowledge-base
iteration order. -/
def relevantOf (parsed : ParsedIntent) (datasets : List Dataset) :
    List RankedDataset :=
  let concepts := parsed.concepts.map pyLower
  let entities := parsed.entities.map pyLower
  datasets.filterMap (fun d =>
    let sr := scoreDataset concepts entities d
    if 0 < sr.1 then some ⟨d, sr.1, sr.2⟩ else none)

/-- The descending-by-score ordering used by the final
`relevant_datasets.sort(key=..., reverse=True)`; the Python sort is stable,
which `List.insertionSort` with this relation reproduces. -/
def scoreGE (a b : RankedDataset) : Prop :=
  b.relevance_score ≤ a.relevance_score

instance : DecidableRel scoreGE := fun a b =>
  Nat.decLe b.relevance_score a.relevance_score

/-- The function `_search_knowledge_base`. -/
def searchKnowledgeBase (parsed : ParsedIntent) (datasets : List Dataset) :
    List RankedDataset :=
  List.insertionSort scoreGE (relevantOf parsed datasets)

/-! ## `_generate_analysis_spec` -/

/-- The fallback workflow dictionary of the `except` branch. -/
def fallbackWorkflow : Workflow :=
  ⟨some [], some "unknown", some [], some "Manual workflow design needed"⟩

/-- Strip a fenced code block from the (already stripped) generation
response: take what stands between \x60\x60\x60json (or a bare
\x60\x60\x60 fence) and the closing fence, and strip it again. -/
def stripFences (content : String) : String :=
  if strContains content "```json" then
    pyStrip ((pySplit ((pySplit content "```json").getD 1 "") "```").getD 0 "")
  else if strContains content "```" then
    pyStrip ((pySplit ((pySplit content "```").getD 1 "") "```").getD 0 "")
  else content

/-- The `try` block of `_generate_analysis_spec` that produces the
workflow: `response = none` models the generation call raising;
`jsonLoads` models `json.loads`, returning `none` on a decode error.
Either failure yields `fallbackWorkflow`. -/
def synthesizeWorkflow (response : Option String)
    (jsonLoads : String → Option Workflow) : Workflow :=
  match response with
  | none => fallbackWorkflow
  | some r =>
    match jsonLoads (stripFences (pyStrip r)) with
    | some w => w
    | none => fallbackWorkflow

/-- The assembly of the final specification record from the workflow
dictionary (every key read with `.get` and a default, `can_complete` an
equality test against the string sufficient). -/
def generateAnalysisSpec (originalQuery : String) (parsed : ParsedIntent)
    (ctx : ActivatedContext) (relevantData : List RankedDataset)
    (workflow : Workflow) : AnalysisSpec :=
  { query := originalQuery
    parsed_query := parsed
    ontology_context :=
      ⟨ctx.relevant_concepts, ctx.relevant_entities, ctx.relevant_methods⟩
    required_data := (relevantData.take 10).map (fun d =>
      ⟨d.dataset.file_name, d.dataset.file_path, "available",
        d.relevance_score, d.reasons⟩)
    analysis_workflow := workflow.steps.getD []
    sufficiency_check :=
      ⟨workflow.data_sufficiency == some "sufficient",
        workflow.data_sufficiency.getD "unknown",
        workflow.missing_data.getD [],
        workflow.alternatives.getD ""⟩ }

instance : IsTotal RankedDataset scoreGE :=
  ⟨fun a b => Nat.le_total b.relevance_score a.relevance_score⟩

instance : IsTrans RankedDataset scoreGE :=
  ⟨fun _ _ _ hab hbc => Nat.le_trans hbc hab⟩

/-- The capable tasks of a dataset of which at least one (lowercased)
concept is a substring: the `any`-test of the capable-task loop, one entry
per task however many concepts match it. -/
def matchingTasks (concepts : List String) (tasks : List String) : List String :=
  tasks.filter (fun t => concepts.any (fun c => strContains (pyLower t) c))

/-- The single dataset of the spec's worked scenario: domain
`accessibility`, represents `activity center boundaries`, polygon
geometry, no capable tasks. -/
def scenarioDataset : Dataset :=
  ⟨"activity_centers.shp", "data/activity_centers.shp",
    "activity center boundaries", "accessibility", "Polygon", []⟩

/-- The parsed intent of the spec's worked scenario. -/
def scenarioIntent : ParsedIntent :=
  ⟨"Find areas with high accessibility to activity centers",
    ["accessibility"], ["activity centers"], [], [],
    "Find areas with high accessibility to activity centers"⟩

/-! ## Basic lemmas about the string model -/

/-- The empty needle is a substring of every hay (Python `'' in s`). -/
theorem listContains_nil (l : List Char) : listContains l [] = true := by
  cases l <;> simp [listContains, List.isPrefixOf]

/-- Python `'' in s` is always true. -/
theorem strContains_empty (s : String) : strContains s "" = true :=
  listContains_nil s.toList

/-! ## Fold invariants for the scoring loops -/

/-- A fold preserves any invariant its step preserves. -/
theorem foldl_preserves {α β : Type} (P : β → Prop) (f : β → α → β)
    (hf : ∀ acc x, P acc → P (f acc x)) :
    ∀ (l : List α) (acc : β), P acc → P (l.foldl f acc)
  | [], _, h => h
  | x :: xs, acc, h => foldl_preserves P f hf xs (f acc x) (hf acc x h)

/-- Shape of every scoring-loop step: leave the accumulator alone, or add
`+1` or `+2` to the score and append exactly one reason. -/
def StepShape (acc next : Nat × List String) : Prop :=
  next = acc ∨ ∃ k ρ, (k = 1 ∨ k = 2) ∧ next = (acc.1 + k, acc.2 ++ [ρ])

theorem conceptStep_shape (domain represents : String)
    (acc : Nat × List String) (c : String) :
    StepShape acc (conceptStep domain represents acc c) := by
  unfold conceptStep StepShape
  split
  · exact Or.inr ⟨2, _, Or.inr rfl, rfl⟩
  · exact Or.inl rfl

theorem entityStep_shape (represents : String)
    (acc : Nat × List String) (e : String) :
    StepShape acc (entityStep represents acc e) := by
  unfold entityStep StepShape
  split
  · exact Or.inr ⟨2, _, Or.inr rfl, rfl⟩
  · exact Or.inl rfl

theorem geomStep_shape (geometry : String)
    (acc : Nat × List String) (e : String) :
    StepShape acc (geomStep geometry acc e) := by
  unfold geomStep StepShape
  split
  · exact Or.inr ⟨1, _, Or.inl rfl, rfl⟩
  · split
    · exact Or.inr ⟨1, _, Or.inl rfl, rfl⟩
    · exact Or.inl rfl

theorem taskStep_shape (concepts : List String)
    (acc : Nat × List String) (t : String) :
    StepShape acc (taskStep concepts acc t) := by
  unfold taskStep StepShape
  dsimp only
  split
  · exact Or.inr ⟨1, _, Or.inl rfl, rfl⟩
  · exact Or.inl rfl

/-- A step of the given shape preserves `len(reasons) ≤ score ≤ 2·len(reasons)`. -/
theorem StepShape.preserves_inv {acc next : Nat × List String}
    (hs : StepShape acc next)
    (h : acc.2.length ≤ acc.1 ∧ acc.1 ≤ 2 * acc.2.length) :
    next.2.length ≤ next.1 ∧ next.1 ≤ 2 * next.2.length := by
  rcases hs with rfl | ⟨k, ρ, hk, rfl⟩
  · exact h
  · simp only [List.length_append, List.length_cons, List.length_nil]
    rcases hk with rfl | rfl <;> omega

/-- A step of the given shape never decreases the score. -/
theorem StepShape.fst_le {acc next : Nat × List String}
    (hs : StepShape acc next) : acc.1 ≤ next.1 := by
  rcases hs with rfl | ⟨k, ρ, _, rfl⟩
  · exact Nat.le_refl _
  · exact Nat.le_add_right _ _

/-- The scoring accumulator of `_search_knowledge_base` always satisfies
`len(reasons) ≤ score ≤ 2·len(reasons)`. -/
theorem scoreDataset_inv (concepts entities : List String) (d : Dataset) :
    (scoreDataset concepts entities d).2.length ≤ (scoreDataset concepts entities d).1 ∧
    (scoreDataset concepts entities d).1 ≤ 2 * (scoreDataset concepts entities d).2.length := by
  unfold scoreDataset scorePreTasks
  apply foldl_preserves _ _
    (fun acc x h => (taskStep_shape _ acc x).preserves_inv h)
  apply foldl_preserves _ _
    (fun acc x h => (geomStep_shape _ acc x).preserves_inv h)
  apply foldl_preserves _ _
    (fun acc x h => (entityStep_shape _ acc x).preserves_inv h)
  apply foldl_preserves _ _
    (fun acc x h => (conceptStep_shape _ _ acc x).preserves_inv h)
  exact ⟨Nat.le_refl 0, Nat.le_refl 0⟩

/-- Folding any shape-respecting step never decreases the score. -/
theorem foldl_fst_le {α : Type} (f : Nat × List String → α → Nat × List String)
    (hf : ∀ acc x, StepShape acc (f acc x)) (l : List α)
    (acc : Nat × List String) : acc.1 ≤ (l.foldl f acc).1 :=
  foldl_preserves (fun a => acc.1 ≤ a.1) f
    (fun a x h => Nat.le_trans h (hf a x).fst_le) l acc (Nat.le_refl _)

/-! ## Characterizing the ranking output -/

/-- Membership in the pre-sort relevant list: exactly the knowledge-base
entries with a strictly positive score, packaged with that score and its
reasons. -/
theorem mem_relevantOf {p : ParsedIntent} {kb : List Dataset} {r : RankedDataset} :
    r ∈ relevantOf p kb ↔ ∃ d ∈ kb,
      0 < (scoreDataset (p.concepts.map pyLower) (p.entities.map pyLower) d).1 ∧
      r = ⟨d, (scoreDataset (p.concepts.map pyLower) (p.entities.map pyLower) d).1,
            (scoreDataset (p.concepts.map pyLower) (p.entities.map pyLower) d).2⟩ := by
  unfold relevantOf
  rw [List.mem_filterMap]
  constructor
  · rintro ⟨d, hd, he⟩
    dsimp only at he
    split at he
    · exact ⟨d, hd, by assumption, (Option.some.inj he).symm⟩
    · exact absurd he (by simp)
  · rintro ⟨d, hd, hpos, rfl⟩
    exact ⟨d, hd, by dsimp only; rw [if_pos hpos]⟩

/-- Sorting does not change membership. -/
theorem mem_searchKB {p : ParsedIntent} {kb : List Dataset} {r : RankedDataset} :
    r ∈ searchKnowledgeBase p kb ↔ r ∈ relevantOf p kb :=
  (List.perm_insertionSort scoreGE _).mem_iff

/-- The datasets of the pre-sort relevant list are exactly the
positively-scoring knowledge-base entries, in iteration order. -/
theorem relevantOf_map_dataset (p : ParsedIntent) (kb : List Dataset) :
    (relevantOf p kb).map RankedDataset.dataset =
      kb.filter (fun d =>
        0 < (scoreDataset (p.concepts.map pyLower) (p.entities.map pyLower) d).1) := by
  unfold relevantOf
  induction kb with
  | nil => rfl
  | cons d ds ih =>
    rw [List.filterMap_cons, List.filter_cons]
    dsimp only
    by_cases h : 0 < (scoreDataset (p.concepts.map pyLower) (p.entities.map pyLower) d).1
    · rw [if_pos h, List.map_cons, ih, if_pos (by simpa using h)]
    · rw [if_neg h, ih, if_neg (by simpa using h)]

/-- The sort does not change the length of the relevant list. -/
theorem length_searchKB (p : ParsedIntent) (kb : List Dataset) :
    (searchKnowledgeBase p kb).length = (relevantOf p kb).length :=
  (List.perm_insertionSort scoreGE _).length_eq

/-! ## Stability of the final sort -/

/-- Inserting into the descending order never reorders entries of any
fixed score: `orderedInsert` places the new entry in front of every
existing entry of the same score (Python's stable `sort` with
`reverse=True` behaves the same way on the head of the list). -/
theorem filter_score_orderedInsert (s : Nat) (x : RankedDataset) :
    ∀ l : List RankedDataset,
      (List.orderedInsert scoreGE x l).filter
          (fun y => y.relevance_score == s) =
        (x :: l).filter (fun y => y.relevance_score == s)
  | [] => rfl
  | y :: ys => by
    by_cases h : scoreGE x y
    · rw [List.orderedInsert_of_le _ _ h]
    · rw [List.orderedInsert, if_neg h]
      have hxy : x.relevance_score < y.relevance_score :=
        Nat.lt_of_not_le h
      have ih := filter_score_orderedInsert s x ys
      simp only [List.filter_cons] at ih ⊢
      rw [ih]
      by_cases hx : x.relevance_score = s <;>
        by_cases hy : y.relevance_score = s
      · omega
      · simp [hx, hy]
      · simp [hx, hy]
      · simp [hx, hy]

/-- The insertion sort is stable: restricted to any fixed score, its
output lists the entries in their input order. -/
theorem filter_score_insertionSort (s : Nat) :
    ∀ l : List RankedDataset,
      (List.insertionSort scoreGE l).filter
          (fun y => y.relevance_score == s) =
        l.filter (fun y => y.relevance_score == s)
  | [] => rfl
  | x :: xs => by
    rw [List.insertionSort, filter_score_orderedInsert]
    simp only [List.filter_cons, filter_score_insertionSort s xs]

/-! ## The capable-task loop in closed form -/

/-- The capable-task fold adds exactly one point and one reason per
matching task. -/
theorem taskStep_foldl (concepts : List String) :
    ∀ (tasks : List String) (acc : Nat × List String),
      tasks.foldl (taskStep concepts) acc =
        (acc.1 + (matchingTasks concepts tasks).length,
          acc.2 ++ (matchingTasks concepts tasks).map
            (fun t => "Capable of related task: " ++ t))
  | [], acc => by simp [matchingTasks]
  | t :: ts, acc => by
    rw [List.foldl_cons, taskStep_foldl concepts ts _]
    unfold taskStep matchingTasks
    dsimp only
    by_cases h : concepts.any (fun c => strContains (pyLower t) c)
    · rw [if_pos h, List.filter_cons, if_pos (by simpa using h)]
      refine Prod.ext ?_ ?_
      · simp; omega
      · simp
    · rw [if_neg h, List.filter_cons, if_neg (by simpa using h)]

/-! ## The empty-string concept -/

/-- A concept equal to the empty string always matches: the concept fold
adds at least `+2` whenever `""` occurs among the concepts. -/
theorem concept_foldl_add_two (domain represents : String)
    {concepts : List String} (h : "" ∈ concepts) (acc : Nat × List String) :
    acc.1 + 2 ≤ (concepts.foldl (conceptStep domain represents) acc).1 := by
  obtain ⟨s, t, rfl⟩ := List.append_of_mem h
  rw [List.foldl_append, List.foldl_cons]
  have h1 : acc.1 ≤ (s.foldl (conceptStep domain represents) acc).1 :=
    foldl_fst_le _ (fun a x => conceptStep_shape domain represents a x) s acc
  set mid := s.foldl (conceptStep domain represents) acc with hmid
  have h2 : conceptStep domain represents mid "" =
      (mid.1 + 2, mid.2 ++ ["Matches concept: " ++ ""]) := by
    unfold conceptStep
    rw [if_pos (by rw [strContains_empty]; rfl)]
  rw [h2]
  have h3 := foldl_fst_le _
    (fun a x => conceptStep_shape domain represents a x) t
    (mid.1 + 2, mid.2 ++ ["Matches concept: " ++ ""])
  simp only at h3
  omega

/-- With `""` among the (lowercased) concepts, every dataset scores at
least 2. -/
theorem scoreDataset_ge_two_of_empty_concept {concepts : List String}
    (entities : List String) (h : "" ∈ concepts) (d : Dataset) :
    2 ≤ (scoreDataset concepts entities d).1 := by
  unfold scoreDataset scorePreTasks
  dsimp only
  have h1 := concept_foldl_add_two (pyLower d.domain) (pyLower d.represents) h (0, [])
  have h2 := foldl_fst_le _ (fun a x => entityStep_shape (pyLower d.represents) a x) entities
    (concepts.foldl (conceptStep (pyLower d.domain) (pyLower d.represents)) (0, []))
  have h3 := foldl_fst_le _ (fun a x => geomStep_shape (pyLower d.geometry_type) a x) entities
    (entities.foldl (entityStep (pyLower d.represents))
      (concepts.foldl (conceptStep (pyLower d.domain) (pyLower d.represents)) (0, [])))
  have h4 := foldl_fst_le _ (fun a x => taskStep_shape concepts a x) d.capable_tasks
    (entities.foldl (geomStep (pyLower d.geometry_type))
      (entities.foldl (entityStep (pyLower d.represents))
        (concepts.foldl (conceptStep (pyLower d.domain) (pyLower d.represents)) (0, []))))
  omega

/-! ## Ontology activation lemmas -/

/-- Occurrence counts distribute over a `flatMap` accumulation: no
de-duplication takes place. -/
theorem count_flatMap {α β : Type} [DecidableEq β] (f : α → List β) (b : β) :
    ∀ l : List α, ((l.flatMap f).count b) =
      (l.map (fun a => (f a).count b)).sum
  | [] => rfl
  | x :: xs => by
    simp [List.flatMap_cons, List.count_append, count_flatMap f b xs]

/-- Lengths distribute over a `flatMap` accumulation. -/
theorem length_flatMap_eq {α β : Type} (f : α → List β) :
    ∀ l : List α, (l.flatMap f).length = (l.map (fun a => (f a).length)).sum
  | [] => rfl
  | x :: xs => by
    simp [List.flatMap_cons, length_flatMap_eq f xs]

/-- Membership in the de-duplicating method accumulation. -/
theorem mem_addMethods (x : String) :
    ∀ (ms acc : List String),
      x ∈ addMethods acc ms ↔ x ∈ acc ∨ x ∈ ms.map localName
  | [], acc => by simp [addMethods]
  | m :: ms, acc => by
    unfold addMethods
    rw [List.foldl_cons]
    dsimp only
    have ih := mem_addMethods x ms
    unfold addMethods at ih
    by_cases h : localName m ∈ acc
    · rw [if_pos h, ih]
      simp only [List.map_cons, List.mem_cons]
      constructor
      · rintro (ha | hm)
        · exact Or.inl ha
        · exact Or.inr (Or.inr hm)
      · rintro (ha | rfl | hm)
        · exact Or.inl ha
        · exact Or.inl h
        · exact Or.inr hm
    · rw [if_neg h, ih]
      simp only [List.mem_append, List.mem_singleton, List.map_cons,
        List.mem_cons]
      tauto

/-- The de-duplicating method accumulation keeps the list duplicate-free. -/
theorem nodup_addMethods :
    ∀ (ms acc : List String), acc.Nodup → (addMethods acc ms).Nodup
  | [], _, h => h
  | m :: ms, acc, h => by
    unfold addMethods
    rw [List.foldl_cons]
    dsimp only
    by_cases hm : localName m ∈ acc
    · rw [if_pos hm]
      exact nodup_addMethods ms acc h
    · rw [if_neg hm]
      refine nodup_addMethods ms _ ?_
      simp [List.nodup_append, h, hm]

/-- Membership in the entity loop accumulating applicable methods. -/
theorem mem_methodsFold (mo : String → List String) (x : String) :
    ∀ (es acc : List String),
      x ∈ es.foldl (fun a e => addMethods a (mo e)) acc ↔
        x ∈ acc ∨ ∃ e ∈ es, x ∈ (mo e).map localName
  | [], acc => by simp
  | e :: es, acc => by
    rw [List.foldl_cons, mem_methodsFold mo x es, mem_addMethods]
    simp only [List.mem_cons]
    constructor
    · rintro ((ha | hm) | ⟨e', he', hm⟩)
      · exact Or.inl ha
      · exact Or.inr ⟨e, Or.inl rfl, hm⟩
      · exact Or.inr ⟨e', Or.inr he', hm⟩
    · rintro (ha | ⟨e', rfl | he', hm⟩)
      · exact Or.inl (Or.inl ha)
      · exact Or.inl (Or.inr hm)
      · exact Or.inr ⟨e', he', hm⟩

/-- The entity loop keeps the method list duplicate-free. -/
theorem nodup_methodsFold (mo : String → List String) :
    ∀ (es acc : List String), acc.Nodup →
      (es.foldl (fun a e => addMethods a (mo e)) acc).Nodup
  | [], _, h => h
  | e :: es, acc, h => by
    rw [List.foldl_cons]
    exact nodup_methodsFold mo es _ (nodup_addMethods _ _ h)

/-! ## Parsing lemmas -/

/-- A line with no recognized marker leaves the parse state unchanged. -/
theorem parseLine_no_marker {line : String} (p : ParsedIntent)
    (h : hasMarker line = false) : parseLine p line = p := by
  unfold hasMarker at h
  simp only [Bool.or_eq_false_iff] at h
  obtain ⟨⟨⟨⟨h1, h2⟩, h3⟩, h4⟩, h5⟩ := h
  unfold parseLine
  simp only [h1, h2, h3, h4, h5]
  rfl

/-- Scanning lines without markers never moves off the initial state. -/
theorem foldl_parseLine_no_marker :
    ∀ (lines : List String) (p : ParsedIntent),
      (∀ line ∈ lines, hasMarker line = false) →
      lines.foldl parseLine p = p
  | [], _, _ => rfl
  | l :: ls, p, h => by
    rw [List.foldl_cons, parseLine_no_marker p (h l (List.mem_cons_self l ls))]
    exact foldl_parseLine_no_marker ls p
      (fun x hx => h x (List.mem_cons_of_mem l hx))

/-! ## Splitting on fences -/

/-- Rebuilding a string from its character list is the identity. -/
theorem mk_toList (s : String) : (⟨s.toList⟩ : String) = s := by
  cases s
  rfl

/-- Applying `asString` to a `toList` recovers the original string. -/
theorem asString_toList (s : String) : s.toList.asString = s := by
  cases s
  rfl

/-- Applying `asString` to concatenated lists concatenates the strings. -/
theorem asString_toList_append (a b : String) :
    (a.toList ++ b.toList).asString = a ++ b := by
  cases a
  cases b
  rfl

/-- String concatenation concatenates the character lists. -/
theorem toList_append (a b : String) :
    (a ++ b).toList = a.toList ++ b.toList := by
  cases a
  cases b
  rfl

/-- Splitting the empty input yields one empty part, at any fuel. -/
theorem splitGo_nil (g : Nat) (sep : List Char) :
    pySplitGo g sep [] = [[]] := by
  cases g <;> rfl

/-- A prefix strips off, leaving the remainder. -/
theorem dropPrefixQ_append (pre r : List Char) :
    dropPrefixQ pre (pre ++ r) = some r := by
  induction pre with
  | nil => rfl
  | cons p ps ih => simp [dropPrefixQ, ih]

/-- Differing heads rule out a prefix. -/
theorem dropPrefixQ_head_ne {p x : Char} (ps xs : List Char) (h : p ≠ x) :
    dropPrefixQ (p :: ps) (x :: xs) = none := by
  unfold dropPrefixQ
  rw [if_neg h]

/-- Every list is a prefix of itself followed by anything. -/
theorem isPrefixOf_append_self (l r : List Char) :
    l.isPrefixOf (l ++ r) = true := by
  induction l with
  | nil => simp
  | cons x xs ih => simp [List.isPrefixOf_cons₂, ih]

/-- A string that starts with `pre` contains `pre`. -/
theorem listContains_headed (pre r : List Char) :
    listContains (pre ++ r) pre = true := by
  cases pre with
  | nil => exact listContains_nil r
  | cons p ps =>
    rw [List.cons_append]
    unfold listContains
    rw [← List.cons_append, isPrefixOf_append_self]
    rfl

/-- When the input starts with the separator, the split starts with an
empty part and continues on the remainder with one unit of fuel spent. -/
theorem splitGo_sep_head (s0 : Char) (ss rest : List Char) :
    ∀ fuel, 0 < fuel →
    pySplitGo fuel (s0 :: ss) ((s0 :: ss) ++ rest) =
      [] :: pySplitGo (fuel - 1) (s0 :: ss) rest := by
  intro fuel hf
  cases fuel with
  | zero => omega
  | succ f =>
    have hd : dropPrefixQ (s0 :: ss) (s0 :: (ss ++ rest)) = some rest := by
      rw [← List.cons_append]
      exact dropPrefixQ_append (s0 :: ss) rest
    rw [List.cons_append]
    simp only [pySplitGo, hd, Nat.succ_sub_one]

/-- Consuming a backtick-free body before a tail whose split is known:
each body character is carried into the first part of the split. -/
theorem splitGo_no_sep_body (ss : List Char) (res : List (List Char))
    (tail : List Char) (hres : res ≠ [])
    (htail : ∀ fuel, tail.length ≤ fuel →
      pySplitGo fuel (backtick :: ss) tail = res) :
    ∀ (body : List Char), backtick ∉ body →
    ∀ fuel, (body ++ tail).length ≤ fuel →
    pySplitGo fuel (backtick :: ss) (body ++ tail) =
      (body ++ res.headD []) :: res.tail
  | [], _, fuel, hf => by
    rw [List.nil_append, htail fuel (by simpa using hf)]
    cases res with
    | nil => exact absurd rfl hres
    | cons h t => simp
  | x :: xs, hb, fuel, hf => by
    cases fuel with
    | zero =>
      simp only [List.length_append, List.length_cons] at hf
      omega
    | succ f =>
      have hx : backtick ≠ x := fun he => hb (he ▸ List.mem_cons_self x xs)
      have hd : dropPrefixQ (backtick :: ss) (x :: (xs ++ tail)) = none :=
        dropPrefixQ_head_ne ss (xs ++ tail) hx
      rw [List.cons_append]
      simp only [pySplitGo, hd]
      rw [splitGo_no_sep_body ss res tail hres htail xs
        (fun hm => hb (List.mem_cons_of_mem x hm)) f
        (by simp only [List.length_append, List.length_cons] at hf ⊢; omega)]
      simp

/-- A backtick-free input does not split at all on a backtick-headed
separator. -/
theorem splitGo_no_match (ss : List Char) :
    ∀ (body : List Char), backtick ∉ body →
    ∀ fuel, body.length ≤ fuel →
    pySplitGo fuel (backtick :: ss) body = [body]
  | [], _, fuel, _ => splitGo_nil fuel _
  | x :: xs, hb, fuel, hf => by
    cases fuel with
    | zero => simp at hf
    | succ f =>
      have hx : backtick ≠ x := fun he => hb (he ▸ List.mem_cons_self x xs)
      have hd : dropPrefixQ (backtick :: ss) (x :: xs) = none :=
        dropPrefixQ_head_ne ss xs hx
      simp only [pySplitGo, hd]
      rw [splitGo_no_match ss xs
        (fun hm => hb (List.mem_cons_of_mem x hm)) f (by simpa using hf)]

/-- Splitting the closing fence by the json fence leaves it whole. -/
theorem splitGo_json_fence : ∀ fuel, 3 ≤ fuel →
    pySplitGo fuel ("```json".toList) [backtick, backtick, backtick] =
      [[backtick, backtick, backtick]] := by
  have d1 : dropPrefixQ ("```json".toList) [backtick, backtick, backtick] = none := by
    decide
  have d2 : dropPrefixQ ("```json".toList) [backtick, backtick] = none := by decide
  have d3 : dropPrefixQ ("```json".toList) [backtick] = none := by decide
  have h1 : ∀ g : Nat, pySplitGo (g + 1) ("```json".toList) [backtick] =
      [[backtick]] := by
    intro g
    simp only [pySplitGo, d3, splitGo_nil]
  have h2 : ∀ g : Nat, pySplitGo (g + 2) ("```json".toList) [backtick, backtick] =
      [[backtick, backtick]] := by
    intro g
    simp only [pySplitGo, d2, d3, splitGo_nil]
  intro fuel h
  obtain ⟨f, rfl⟩ : ∃ f, fuel = f + 3 := ⟨fuel - 3, by omega⟩
  simp only [pySplitGo, d1, d2, d3, splitGo_nil]

/-- Splitting the closing fence by the bare fence yields two empty parts. -/
theorem splitGo_fence_fence : ∀ fuel, 3 ≤ fuel →
    pySplitGo fuel ("```".toList) [backtick, backtick, backtick] =
      [[], []] := by
  intro fuel h
  obtain ⟨f, rfl⟩ : ∃ f, fuel = f + 3 := ⟨fuel - 3, by omega⟩
  have hd : dropPrefixQ ("```".toList) [backtick, backtick, backtick] = some [] := by
    decide
  simp only [pySplitGo, hd, splitGo_nil]

/-- Splitting a json-fenced response on the json fence: an empty part,
then the body with the closing fence attached. -/
theorem pySplit_json_wrapped (body : String) (hb : backtick ∉ body.toList) :
    pySplit ("```json" ++ body ++ "```") "```json" = ["", body ++ "```"] := by
  unfold pySplit
  rw [toList_append, toList_append, List.append_assoc]
  rw [show "```".toList = [backtick, backtick, backtick] from by decide]
  rw [show "```json".toList = backtick :: "``json".toList from by decide]
  rw [splitGo_sep_head backtick ("``json".toList)
    (body.toList ++ [backtick, backtick, backtick]) _ (by simp)]
  rw [splitGo_no_sep_body ("``json".toList) [[backtick, backtick, backtick]]
    [backtick, backtick, backtick] (by simp)
    (fun fuel hf => by
      rw [show (backtick :: "``json".toList) = "```json".toList from by decide]
      exact splitGo_json_fence fuel (by simpa using hf))
    body.toList hb _
    (by simp only [List.length_append, List.length_cons, List.length_nil]; omega)]
  simp only [List.headD, List.tail, List.map]
  rw [show ([backtick, backtick, backtick] : List Char) = "```".toList from by decide]
  rw [asString_toList_append body "```"]
  rfl

/-- Splitting `body + closing fence` on the bare fence: the body, then an
empty part. -/
theorem pySplit_body_fence (body : String) (hb : backtick ∉ body.toList) :
    pySplit (body ++ "```") "```" = [body, ""] := by
  unfold pySplit
  rw [toList_append]
  rw [show "```".toList = [backtick, backtick, backtick] from by decide]
  rw [show ([backtick, backtick, backtick] : List Char) =
    backtick :: [backtick, backtick] from rfl]
  rw [splitGo_no_sep_body [backtick, backtick] [[], []]
    [backtick, backtick, backtick] (by simp)
    (fun fuel hf => by
      rw [show (backtick :: [backtick, backtick]) = "```".toList from by decide]
      exact splitGo_fence_fence fuel (by simpa using hf))
    body.toList hb _ (Nat.le_refl _)]
  simp only [List.headD, List.tail, List.map, List.append_nil]
  rw [asString_toList body]
  rfl

/-- Splitting a bare-fenced response on the bare fence: empty part, body,
empty part. -/
theorem pySplit_plain_wrapped (body : String) (hb : backtick ∉ body.toList) :
    pySplit ("```" ++ body ++ "```") "```" = ["", body, ""] := by
  unfold pySplit
  rw [toList_append, toList_append, List.append_assoc]
  rw [show "```".toList = [backtick, backtick, backtick] from by decide]
  rw [show ([backtick, backtick, backtick] : List Char) =
    backtick :: [backtick, backtick] from rfl]
  rw [splitGo_sep_head backtick [backtick, backtick]
    (body.toList ++ backtick :: [backtick, backtick]) _ (by simp)]
  rw [splitGo_no_sep_body [backtick, backtick] [[], []]
    (backtick :: [backtick, backtick]) (by simp)
    (fun fuel hf => by
      rw [show (backtick :: [backtick, backtick]) = "```".toList from by decide]
      exact splitGo_fence_fence fuel (by simpa using hf))
    body.toList hb _
    (by simp only [List.length_append, List.length_cons, List.length_nil]; omega)]
  simp only [List.headD, List.tail, List.map, List.append_nil]
  rw [asString_toList body]
  rfl

/-- Splitting a backtick-free body on the bare fence leaves it whole. -/
theorem pySplit_body_no_fence (body : String) (hb : backtick ∉ body.toList) :
    pySplit body "```" = [body] := by
  unfold pySplit
  rw [show "```".toList = [backtick, backtick, backtick] from by decide]
  rw [show ([backtick, backtick, backtick] : List Char) =
    backtick :: [backtick, backtick] from rfl]
  rw [splitGo_no_match [backtick, backtick] body.toList hb _ (Nat.le_refl _)]
  simp only [List.map]
  rw [asString_toList body]

/-- Stripping whitespace leaves a list that starts and ends with a
backtick unchanged. -/
theorem stripList_backtick (mid : List Char) :
    (((backtick :: (mid ++ [backtick])).dropWhile Char.isWhitespace).reverse.dropWhile
        Char.isWhitespace).reverse = backtick :: (mid ++ [backtick]) := by
  have hws : Char.isWhitespace backtick = false := by decide
  rw [List.dropWhile_cons, hws]
  simp only [Bool.false_eq_true, if_false]
  rw [show (backtick :: (mid ++ [backtick])).reverse =
    backtick :: (mid.reverse ++ [backtick]) from by simp]
  rw [List.dropWhile_cons, hws]
  simp only [Bool.false_eq_true, if_false]
  simp

/-- A string whose characters start and end with a backtick is unchanged
by `strip()`. -/
theorem pyStrip_backtick_wrapped (s : String) (mid : List Char)
    (h : s.toList = backtick :: (mid ++ [backtick])) : pyStrip s = s := by
  unfold pyStrip
  rw [h, stripList_backtick, ← h, mk_toList]

/-- The characters of a json-fenced response, in wrapped form. -/
theorem toList_json_wrap (body : String) :
    ("```json" ++ body ++ "```").toList =
      backtick :: (("``json".toList ++ body.toList ++ [backtick, backtick]) ++
        [backtick]) := by
  rw [toList_append, toList_append]
  rw [show "```json".toList = backtick :: "``json".toList from by decide,
    show "```".toList = [backtick, backtick, backtick] from by decide]
  simp

/-- The characters of a bare-fenced response, in wrapped form. -/
theorem toList_plain_wrap (body : String) :
    ("```" ++ body ++ "```").toList =
      backtick :: (([backtick, backtick] ++ body.toList ++ [backtick, backtick]) ++
        [backtick]) := by
  rw [toList_append, toList_append]
  rw [show "```".toList = [backtick, backtick, backtick] from by decide]
  simp

/-- A json-fenced response is already stripped. -/
theorem pyStrip_json_wrap (body : String) :
    pyStrip ("```json" ++ body ++ "```") = "```json" ++ body ++ "```" :=
  pyStrip_backtick_wrapped _ _ (toList_json_wrap body)

/-- A bare-fenced response is already stripped. -/
theorem pyStrip_plain_wrap (body : String) :
    pyStrip ("```" ++ body ++ "```") = "```" ++ body ++ "```" :=
  pyStrip_backtick_wrapped _ _ (toList_plain_wrap body)

/-- A json-fenced response contains the json fence marker. -/
theorem strContains_json_wrap (body : String) :
    strContains ("```json" ++ body ++ "```") "```json" = true := by
  unfold strContains
  rw [toList_append, toList_append, List.append_assoc]
  exact listContains_headed _ _

/-- A bare-fenced response contains the fence marker. -/
theorem strContains_plain_wrap (body : String) :
    strContains ("```" ++ body ++ "```") "```" = true := by
  unfold strContains
  rw [toList_append, toList_append, List.append_assoc]
  exact listContains_headed _ _

/-- Stripping the fences of a json-fenced response recovers the stripped
body: exactly what `_generate_analysis_spec` passes to `json.loads`. -/
theorem stripFences_json (body : String) (hb : backtick ∉ body.toList) :
    stripFences ("```json" ++ body ++ "```") = pyStrip body := by
  unfold stripFences
  rw [if_pos (strContains_json_wrap body)]
  rw [pySplit_json_wrapped body hb]
  rw [show (["", body ++ "```"].getD 1 "") = body ++ "```" from rfl]
  rw [pySplit_body_fence body hb]
  rfl

/-- Stripping the fences of a bare-fenced response recovers the stripped
body, provided the response does not carry the json marker. -/
theorem stripFences_plain (body : String) (hb : backtick ∉ body.toList)
    (hnj : strContains ("```" ++ body ++ "```") "```json" = false) :
    stripFences ("```" ++ body ++ "```") = pyStrip body := by
  unfold stripFences
  rw [if_neg (by rw [hnj]; simp)]
  rw [if_pos (strContains_plain_wrap body)]
  rw [pySplit_plain_wrapped body hb]
  rw [show (["", body, ""].getD 1 "") = body from rfl]
  rw [pySplit_body_no_fence body hb]
  rfl

/-! ## Claims -/

/-- C1: For every knowledge base and every parsed intent,
`_search_knowledge_base` returns at most as many entries as there are
datasets; the returned datasets are exactly (as a multiset) the datasets
whose additive relevance score is strictly positive; and every returned
entry carries a strictly positive score, so no zero-scoring dataset ever
appears in the output. -/
theorem searchKB_exactly_positive (p : ParsedIntent) (kb : List Dataset) :
    (searchKnowledgeBase p kb).length ≤ kb.length ∧
    List.Perm ((searchKnowledgeBase p kb).map RankedDataset.dataset)
      (kb.filter (fun d =>
        0 < (scoreDataset (p.concepts.map pyLower) (p.entities.map pyLower) d).1)) ∧
    ∀ r ∈ searchKnowledgeBase p kb, 0 < r.relevance_score := by
  refine ⟨?_, ?_, ?_⟩
  · rw [length_searchKB]
    exact List.length_filterMap_le _ _
  · rw [← relevantOf_map_dataset]
    exact (List.perm_insertionSort scoreGE _).map _
  · intro r hr
    obtain ⟨d, _, hpos, rfl⟩ := mem_relevantOf.1 (mem_searchKB.1 hr)
    exact hpos

theorem searchKB_exactly_positive_witness :
    (⟨scenarioDataset, 2, ["Matches concept: accessibility"]⟩ : RankedDataset) ∈
      searchKnowledgeBase scenarioIntent [scenarioDataset] ∧
    (0 : Nat) < 2 :=
  ⟨by decide,
    (searchKB_exactly_positive scenarioIntent [scenarioDataset]).2.2
      ⟨scenarioDataset, 2, ["Matches concept: accessibility"]⟩ (by decide)⟩

/-- C2 (counterexample): on the spec's worked scenario the single returned
entry does not have relevance score 4 with two reasons. -/
theorem scenario_not_score_four :
    ¬ ((searchKnowledgeBase scenarioIntent [scenarioDataset]).map
        (fun r => (r.relevance_score, r.reasons.length)) = [(4, 2)]) := by
  decide

/-- C2 (amended): the scenario returns the dataset with relevance score 2
and one reason — only the concept/domain rule fires (+2 for
`accessibility` in the domain); the entity `activity centers` is not a
substring of `activity center boundaries` (the represents text has the
singular `center`), so the entity rule contributes nothing. -/
theorem scenario_score_two :
    searchKnowledgeBase scenarioIntent [scenarioDataset] =
      [⟨scenarioDataset, 2, ["Matches concept: accessibility"]⟩] := by
  decide

/-- C3 (counterexample): a successful generation response containing none
of the five markers leaves `intent` as the empty string, not the raw
query. -/
theorem parse_no_marker_intent_empty :
    ¬ ((parseQuery "hello" (some "no markers here")).intent = "hello") := by
  decide

/-- C3 (amended): if the generation call raises, `_parse_query` returns
the degraded intent with all list fields empty and `intent` equal to the
raw query verbatim; if the call succeeds but no (stripped) response line
starts with one of the five markers, all list fields are empty and
`intent` is the empty string — not the raw query. Both branches are
total: parsing never raises. -/
theorem parse_query_degraded (q content : String)
    (h : ∀ line ∈ pySplit content "\n", hasMarker line = false) :
    parseQuery q none = ⟨q, [], [], [], [], q⟩ ∧
    parseQuery q (some content) = ⟨q, [], [], [], [], ""⟩ := by
  refine ⟨rfl, ?_⟩
  unfold parseQuery
  exact foldl_parseLine_no_marker _ _ h

theorem parse_query_degraded_witness :
    parseQuery "hello" none = ⟨"hello", [], [], [], [], "hello"⟩ ∧
    parseQuery "hello" (some "no markers here") =
      ⟨"hello", [], [], [], [], ""⟩ :=
  parse_query_degraded "hello" "no markers here" (by decide)

/-- C4: the ranking output is sorted by descending relevance score, and
the sort is stable: restricted to any fixed score, the output lists the
entries exactly as they occur in the pre-sort relevant list, which itself
follows knowledge-base iteration order. -/
theorem searchKB_sorted_stable (p : ParsedIntent) (kb : List Dataset) :
    List.Sorted scoreGE (searchKnowledgeBase p kb) ∧
    ∀ s : Nat,
      (searchKnowledgeBase p kb).filter (fun r => r.relevance_score == s) =
        (relevantOf p kb).filter (fun r => r.relevance_score == s) :=
  ⟨List.sorted_insertionSort scoreGE _,
    fun s => filter_score_insertionSort s _⟩

/-- C5: `_activate_ontology` appends every node id returned by term
matching without de-duplication — occurrence counts add up across query
terms, and each duplicate concept occurrence contributes its relationship
rows again — while `relevant_methods` is de-duplicated: a method's local
name appears at most once, and it appears exactly when some activated
entity has it among its applicable methods. -/
theorem activate_dup_and_dedup (matchTerm : String → String → List String)
    (relationsOf : String → List (String × String))
    (methodsOf : String → List String) (p : ParsedIntent) :
    (∀ n, (activateOntology matchTerm relationsOf methodsOf p).relevant_concepts.count n =
      (p.concepts.map (fun c => (matchTerm c "PlanningConcept").count n)).sum) ∧
    (∀ n, (activateOntology matchTerm relationsOf methodsOf p).relevant_entities.count n =
      (p.entities.map (fun e => (matchTerm e "UrbanEntity").count n)).sum) ∧
    (activateOntology matchTerm relationsOf methodsOf p).relationships.length =
      ((activateOntology matchTerm relationsOf methodsOf p).relevant_concepts.map
        (fun cu => (relationsOf cu).length)).sum ∧
    (activateOntology matchTerm relationsOf methodsOf p).relevant_methods.Nodup ∧
    (∀ m, m ∈ (activateOntology matchTerm relationsOf methodsOf p).relevant_methods ↔
      ∃ e ∈ (activateOntology matchTerm relationsOf methodsOf p).relevant_entities,
        m ∈ (methodsOf e).map localName) := by
  unfold activateOntology
  dsimp only
  refine ⟨?_, ?_, ?_, ?_, ?_⟩
  · intro n
    exact count_flatMap _ n _
  · intro n
    exact count_flatMap _ n _
  · rw [length_flatMap_eq]
    simp [List.length_map]
  · exact nodup_methodsFold methodsOf _ [] List.nodup_nil
  · intro m
    rw [mem_methodsFold]
    simp

/-- C6: in the assembled specification, `can_complete` holds exactly when
the decoded workflow's `data_sufficiency` is the exact string
`sufficient`; any other string, and a missing key, yield `false` without
raising. -/
theorem can_complete_iff_sufficient (q : String) (p : ParsedIntent)
    (ctx : ActivatedContext) (rd : List RankedDataset) (w : Workflow) :
    ((generateAnalysisSpec q p ctx rd w).sufficiency_check.can_complete = true) ↔
      w.data_sufficiency = some "sufficient" := by
  unfold generateAnalysisSpec
  dsimp only
  simp [beq_iff_eq]

/-- C7: workflow synthesis never raises and falls back to the documented
default — empty steps, sufficiency `unknown`, no missing data, a manual
design note — when the generation call errors or the decoded content is
rejected; and a response wrapped in a ```json fence (or a bare ``` fence
carrying no json marker) is stripped down to its stripped body before
being handed to the JSON decoder. -/
theorem workflow_fallback_and_fence_strip (jsonLoads : String → Option Workflow) :
    fallbackWorkflow =
      ⟨some [], some "unknown", some [], some "Manual workflow design needed"⟩ ∧
    synthesizeWorkflow none jsonLoads = fallbackWorkflow ∧
    (∀ r : String, jsonLoads (stripFences (pyStrip r)) = none →
      synthesizeWorkflow (some r) jsonLoads = fallbackWorkflow) ∧
    (∀ body : String, backtick ∉ body.toList →
      synthesizeWorkflow (some ("```json" ++ body ++ "```")) jsonLoads =
        match jsonLoads (pyStrip body) with
        | some w => w
        | none => fallbackWorkflow) ∧
    (∀ body : String, backtick ∉ body.toList →
      strContains ("```" ++ body ++ "```") "```json" = false →
      synthesizeWorkflow (some ("```" ++ body ++ "```")) jsonLoads =
        match jsonLoads (pyStrip body) with
        | some w => w
        | none => fallbackWorkflow) := by
  refine ⟨rfl, rfl, ?_, ?_, ?_⟩
  · intro r h
    unfold synthesizeWorkflow
    dsimp only
    rw [h]
  · intro body hb
    unfold synthesizeWorkflow
    dsimp only
    rw [pyStrip_json_wrap body, stripFences_json body hb]
  · intro body hb hnj
    unfold synthesizeWorkflow
    dsimp only
    rw [pyStrip_plain_wrap body, stripFences_plain body hb hnj]

theorem workflow_fallback_and_fence_strip_witness :
    synthesizeWorkflow (some ("```json" ++ " x " ++ "```")) (fun _ => none) =
      fallbackWorkflow ∧
    synthesizeWorkflow none (fun _ => none) = fallbackWorkflow := by
  have h := (workflow_fallback_and_fence_strip (fun _ => none)).2.2.2.1
    " x " (by decide)
  exact ⟨by simpa using h,
    (workflow_fallback_and_fence_strip (fun _ => none)).2.1⟩

/-- C8: the capable-task contribution of the scoring loop adds exactly
`+1` for each capable task of which at least one concept is a substring —
one point per matching task, however many concepts match it — and appends
exactly one reason per matching task, after the contributions of the
first three rules. -/
theorem capable_tasks_scoring (concepts entities : List String) (d : Dataset) :
    (scoreDataset concepts entities d).1 =
      (scorePreTasks concepts entities d).1 +
        (matchingTasks concepts d.capable_tasks).length ∧
    (scoreDataset concepts entities d).2 =
      (scorePreTasks concepts entities d).2 ++
        (matchingTasks concepts d.capable_tasks).map
          (fun t => "Capable of related task: " ++ t) := by
  unfold scoreDataset
  rw [taskStep_foldl concepts d.capable_tasks _]
  exact ⟨rfl, rfl⟩

/-- C9: every entry returned by `_search_knowledge_base` has a non-empty
reason list, and its score and reason count satisfy
`len(reasons) ≤ relevance_score ≤ 2·len(reasons)`: every contribution
appends exactly one reason and is worth `+1` or `+2`. -/
theorem searchKB_reasons_bounds (p : ParsedIntent) (kb : List Dataset) :
    ∀ r ∈ searchKnowledgeBase p kb,
      r.reasons ≠ [] ∧ r.reasons.length ≤ r.relevance_score ∧
      r.relevance_score ≤ 2 * r.reasons.length := by
  intro r hr
  obtain ⟨d, _, hpos, rfl⟩ := mem_relevantOf.1 (mem_searchKB.1 hr)
  have hinv := scoreDataset_inv (p.concepts.map pyLower) (p.entities.map pyLower) d
  refine ⟨?_, hinv.1, hinv.2⟩
  intro hnil
  have h2 := hinv.2
  rw [show ((⟨d, (scoreDataset (p.concepts.map pyLower) (p.entities.map pyLower) d).1,
      (scoreDataset (p.concepts.map pyLower) (p.entities.map pyLower) d).2⟩ :
      RankedDataset)).reasons =
    (scoreDataset (p.concepts.map pyLower) (p.entities.map pyLower) d).2 from rfl]
    at hnil
  rw [hnil] at h2
  simp at h2
  omega

theorem searchKB_reasons_bounds_witness :
    (["Matches concept: accessibility"] : List String) ≠ [] ∧
    (["Matches concept: accessibility"] : List String).length ≤ 2 ∧
    (2 : Nat) ≤ 2 * (["Matches concept: accessibility"] : List String).length :=
  searchKB_reasons_bounds scenarioIntent [scenarioDataset]
    ⟨scenarioDataset, 2, ["Matches concept: accessibility"]⟩ (by decide)

/-- C10: when the parsed concepts contain the empty string — which
`_parse_query` produces from a `CONCEPTS:` line with an empty remainder,
since splitting the empty remainder on commas yields `[""]` — every
dataset scores at least `+2` (the empty string is a substring of every
domain), so every knowledge-base dataset appears in the ranking output. -/
theorem empty_concept_returns_all (p : ParsedIntent) (kb : List Dataset)
    (h : "" ∈ p.concepts) :
    (parseQuery "q" (some "CONCEPTS:")).concepts = [""] ∧
    (∀ d ∈ kb, 2 ≤ (scoreDataset (p.concepts.map pyLower)
      (p.entities.map pyLower) d).1) ∧
    ∀ d ∈ kb, ∃ r ∈ searchKnowledgeBase p kb, r.dataset = d := by
  have hmem : "" ∈ p.concepts.map pyLower := List.mem_map.2 ⟨"", h, rfl⟩
  refine ⟨by decide, ?_, ?_⟩
  · intro d _
    exact scoreDataset_ge_two_of_empty_concept _ hmem d
  · intro d hd
    have hpos : 0 < (scoreDataset (p.concepts.map pyLower)
        (p.entities.map pyLower) d).1 :=
      Nat.lt_of_lt_of_le (by omega)
        (scoreDataset_ge_two_of_empty_concept _ hmem d)
    exact ⟨⟨d, (scoreDataset (p.concepts.map pyLower) (p.entities.map pyLower) d).1,
      (scoreDataset (p.concepts.map pyLower) (p.entities.map pyLower) d).2⟩,
      mem_searchKB.2 (mem_relevantOf.2 ⟨d, hd, hpos, rfl⟩), rfl⟩

theorem empty_concept_returns_all_witness :
    (parseQuery "q" (some "CONCEPTS:")).concepts = [""] ∧
    2 ≤ (scoreDataset ((⟨"q", [""], [], [], [], "q"⟩ : ParsedIntent).concepts.map pyLower)
      ((⟨"q", [""], [], [], [], "q"⟩ : ParsedIntent).entities.map pyLower)
      scenarioDataset).1 :=
  ⟨(empty_concept_returns_all ⟨"q", [""], [], [], [], "q"⟩ [] (by decide)).1,
    (empty_concept_returns_all ⟨"q", [""], [], [], [], "q"⟩ [scenarioDataset]
      (by decide)).2.1 scenarioDataset (by decide)⟩
